import Mathlib

/-!
# Verification of the flytekit translation layer and script-mode tooling

This file gives a shallow embedding of the repository's code and settles a
fixed list of claims about it.

* `flytekit/tools/script_mode.py` is embedded directly from the source
  (`hash_script_file`, `compress_single_script`).
* The core translation layer (context stack, promise/binding graph builder,
  conditional compiler, dynamic compiler) is not shipped in this source tree;
  only its unit tests are.  Those parts are modelled from the specification,
  and every such definition is marked `Modelled from the spec:` in its doc
  comment.

Machine words are represented as `Nat` with explicit reduction `% 2 ^ 32`
where 32-bit overflow matters.  Fallible code returns `Option`/`Except`.
-/

namespace FlytekitSpec

/-! ## SHA-256 (the `hashlib.sha256` collaborator used by `hash_script_file`)

A byte is a `Nat` in `[0, 256)`.  The implementation is the standard FIPS
180-4 algorithm over byte lists, written with structural recursion only so
that concrete digests are kernel-computable. -/

/-- 2^32, the modulus for 32-bit arithmetic. -/
def M32 : Nat := 4294967296

/-- Right rotation of a 32-bit word (input assumed `< 2 ^ 32`). -/
def rotr32 (n x : Nat) : Nat := x / 2 ^ n + x % 2 ^ n * 2 ^ (32 - n)

/-- Logical right shift. -/
def shr32 (n x : Nat) : Nat := x / 2 ^ n

/-- `Ch(e,f,g)` of FIPS 180-4. -/
def sha256ch (e f g : Nat) : Nat := (e &&& f) ^^^ ((4294967295 ^^^ e) &&& g)

/-- `Maj(a,b,c)` of FIPS 180-4. -/
def sha256maj (a b c : Nat) : Nat := (a &&& b) ^^^ (a &&& c) ^^^ (b &&& c)

/-- `Σ₀` of FIPS 180-4. -/
def bigSigma0 (x : Nat) : Nat := rotr32 2 x ^^^ rotr32 13 x ^^^ rotr32 22 x

/-- `Σ₁` of FIPS 180-4. -/
def bigSigma1 (x : Nat) : Nat := rotr32 6 x ^^^ rotr32 11 x ^^^ rotr32 25 x

/-- `σ₀` of FIPS 180-4. -/
def smallSigma0 (x : Nat) : Nat := rotr32 7 x ^^^ rotr32 18 x ^^^ shr32 3 x

/-- `σ₁` of FIPS 180-4. -/
def smallSigma1 (x : Nat) : Nat := rotr32 17 x ^^^ rotr32 19 x ^^^ shr32 10 x

/-- The 64 SHA-256 round constants of FIPS 180-4 §4.2.2 (the fractional
parts of the cube roots of the first 64 primes), written in decimal:
`0x428a2f98` is `1116352408`, and so on row by row. -/
def sha256K : List Nat :=
  [1116352408, 1899447441, 3049323471, 3921009573, 961987163, 1508970993,
   2453635748, 2870763221, 3624381080, 310598401, 607225278, 1426881987,
   1925078388, 2162078206, 2614888103, 3248222580, 3835390401, 4022224774,
   264347078, 604807628, 770255983, 1249150122, 1555081692, 1996064986,
   2554220882, 2821834349, 2952996808, 3210313671, 3336571891, 3584528711,
   113926993, 338241895, 666307205, 773529912, 1294757372, 1396182291,
   1695183700, 1986661051, 2177026350, 2456956037, 2730485921, 2820302411,
   3259730800, 3345764771, 3516065817, 3600352804, 4094571909, 275423344,
   430227734, 506948616, 659060556, 883997877, 958139571, 1322822218,
   1537002063, 1747873779, 1955562222, 2024104815, 2227730452, 2361852424,
   2428436474, 2756734187, 3204031479, 3329325298]

/-- The initial SHA-256 hash values of FIPS 180-4 §5.3.3 (fractional parts
of the square roots of the first 8 primes), in decimal: `0x6a09e667` is
`1779033703`, and so on. -/
def sha256H0 : List Nat :=
  [1779033703, 3144134277, 1013904242, 2773480762, 1359893119, 2600822924,
   528734635, 1541459225]

/-- Big-endian serialization of `n` into `k` bytes. -/
def beBytes (n : Nat) : Nat → List Nat
  | 0 => []
  | k + 1 => n / 2 ^ (8 * k) % 256 :: beBytes n k

/-- FIPS 180-4 padding: append `0x80`, zeros, and the 64-bit big-endian
bit length, so the total length is a multiple of 64 bytes. -/
def sha256pad (msg : List Nat) : List Nat :=
  msg ++ 0x80 :: List.replicate ((119 - msg.length % 64) % 64) 0 ++ beBytes (msg.length * 8) 8

/-- Group bytes into big-endian 32-bit words (groups of 4). -/
def bytesToWords : List Nat → List Nat
  | b0 :: b1 :: b2 :: b3 :: rest =>
      (b0 % 256 * 16777216 + b1 % 256 * 65536 + b2 % 256 * 256 + b3 % 256) :: bytesToWords rest
  | _ => []

/-- Big-endian bytes of one 32-bit word. -/
def wordToBytes (w : Nat) : List Nat :=
  [w / 16777216 % 256, w / 65536 % 256, w / 256 % 256, w % 256]

/-- Extend the 16 message words to 64 schedule words (`n` words still to add). -/
def extendSchedule : Nat → Array Nat → Array Nat
  | 0, w => w
  | n + 1, w =>
      let i := w.size
      let wi := (smallSigma1 (w.getD (i - 2) 0) + w.getD (i - 7) 0 +
                 smallSigma0 (w.getD (i - 15) 0) + w.getD (i - 16) 0) % M32
      extendSchedule n (w.push wi)

/-- The eight 32-bit working variables of the compression function. -/
structure Sha256State where
  a : Nat
  b : Nat
  c : Nat
  d : Nat
  e : Nat
  f : Nat
  g : Nat
  h : Nat

/-- One list-driven pass of the 64 compression rounds. -/
def compressRounds : List Nat → List Nat → Sha256State → Sha256State
  | wi :: ws, ki :: ks, st =>
      let t1 := (st.h + bigSigma1 st.e + sha256ch st.e st.f st.g + ki + wi) % M32
      let t2 := (bigSigma0 st.a + sha256maj st.a st.b st.c) % M32
      compressRounds ws ks ⟨(t1 + t2) % M32, st.a, st.b, st.c, (st.d + t1) % M32, st.e, st.f, st.g⟩
  | _, _, st => st

/-- Process one 64-byte block, updating the eight running hash words. -/
def sha256Block (hs : List Nat) (block : List Nat) : List Nat :=
  let ws := (extendSchedule 48 (bytesToWords block).toArray).toList
  match hs with
  | [h0, h1, h2, h3, h4, h5, h6, h7] =>
      let st := compressRounds ws sha256K ⟨h0, h1, h2, h3, h4, h5, h6, h7⟩
      [(h0 + st.a) % M32, (h1 + st.b) % M32, (h2 + st.c) % M32, (h3 + st.d) % M32,
       (h4 + st.e) % M32, (h5 + st.f) % M32, (h6 + st.g) % M32, (h7 + st.h) % M32]
  | _ => hs

/-- Split a byte list into 64-byte chunks. `fuel` bounds the number of
steps; it is instantiated with the list length, which always suffices. -/
def chunksLoop : Nat → List Nat → List (List Nat)
  | 0, _ => []
  | _ + 1, [] => []
  | fuel + 1, b :: bs => ((b :: bs).take 64) :: chunksLoop fuel ((b :: bs).drop 64)

/-- All 64-byte blocks of a (padded) message. -/
def chunksOf64 (l : List Nat) : List (List Nat) := chunksLoop l.length l

/-- The 32 digest bytes of a byte message. -/
def sha256bytes (msg : List Nat) : List Nat :=
  (((chunksOf64 (sha256pad msg)).foldl sha256Block sha256H0).map wordToBytes).foldr (· ++ ·) []

/-- One lowercase hexadecimal digit (input assumed `< 16`). -/
def hexChar (n : Nat) : Char := if n < 10 then Char.ofNat (48 + n) else Char.ofNat (87 + n % 16)

/-- Two lowercase hexadecimal digits of a byte. -/
def byteToHex (b : Nat) : List Char := [hexChar (b / 16 % 16), hexChar (b % 16)]

/-- The lowercase hexadecimal SHA-256 digest of a byte message, hashing the
whole message in a single pass. -/
def sha256hex (msg : List Nat) : String := ⟨((sha256bytes msg).map byteToHex).foldr (· ++ ·) []⟩

/-- FIPS 180-4 test vector: the digest of the empty message. -/
theorem sha256hex_nil :
    sha256hex [] = "e3b0c44298fc1c149afbf4c8996fb92427ae41e4649b934ca495991b7852b855" := by decide

/-- FIPS 180-4 test vector: the digest of "abc". -/
theorem sha256hex_abc :
    sha256hex [97, 98, 99] =
      "ba7816bf8f01cfea414140de5dae2223b00361a396177a9cb410ff61f20015ad" := by decide

/-! ## `flytekit/tools/script_mode.py`: `hash_script_file`

The file system is modelled as a partial map from paths to byte contents.
A `hashlib` object is modelled by its defining contract: the incremental
state after a sequence of `update` calls is the concatenation of all bytes
fed so far, and `hexdigest` is the SHA-256 hex digest of that buffer. -/

/-- A `hashlib.sha256()` hash object.  Its state is the byte sequence fed
into it so far (per the `hashlib` contract, `update(a); update(b)` is
equivalent to `update(a ++ b)`). -/
structure HashObj where
  buf : List Nat

/-- `h.block_size` of a sha256 hash object: 64 bytes. -/
def HashObj.block_size (_h : HashObj) : Nat := 64

/-- `h.update(chunk)`. -/
def HashObj.update (h : HashObj) (chunk : List Nat) : HashObj := ⟨h.buf ++ chunk⟩

/-- `h.hexdigest()`. -/
def HashObj.hexdigest (h : HashObj) : String := sha256hex h.buf

/-- The `while True: chunk = file.read(h.block_size); if not chunk: break;
h.update(chunk)` loop of `hash_script_file`.  `file.read(n)` on a regular
file returns the next `min n remaining` bytes, i.e. `remaining.take n`,
advancing the position.  `fuel` bounds the iteration count; it is
instantiated with the number of unread bytes, which always suffices since
every iteration consumes at least one byte (see `hashReadLoopFuel_buf`). -/
def hashReadLoopFuel : Nat → HashObj → List Nat → HashObj
  | 0, h, _ => h
  | fuel + 1, h, remaining =>
      let chunk := remaining.take (h.block_size)
      if chunk.isEmpty then h
      else hashReadLoopFuel fuel (h.update chunk) (remaining.drop (h.block_size))

/-- The read loop started on the full file contents. -/
def hashReadLoop (h : HashObj) (contents : List Nat) : HashObj :=
  hashReadLoopFuel contents.length h contents

/-- `hash_script_file(file_path)` from `flytekit/tools/script_mode.py`:
open the file, feed it to a fresh sha256 object in `block_size` chunks,
and return the hex digest.  `none` models the `OSError` of opening a
non-existing file. -/
def hash_script_file (fs : String → Option (List Nat)) (file_path : String) : Option String :=
  match fs file_path with
  | none => none
  | some contents => some ((hashReadLoop ⟨[]⟩ contents).hexdigest)

theorem hashReadLoopFuel_buf :
    ∀ (fuel : Nat) (h : HashObj) (remaining : List Nat), remaining.length ≤ fuel →
      (hashReadLoopFuel fuel h remaining).buf = h.buf ++ remaining := by
  intro fuel
  induction fuel with
  | zero =>
      intro h remaining hle
      have : remaining = [] := List.length_eq_zero.mp (Nat.le_zero.mp hle)
      subst this
      simp [hashReadLoopFuel]
  | succ n ih =>
      intro h remaining hle
      by_cases hempty : (remaining.take (h.block_size)).isEmpty
      · have : remaining = [] := by
          rcases List.take_eq_nil_iff.mp (List.isEmpty_iff.mp hempty) with h64 | hnil
        -- `h.block_size = 64 ≠ 0`, so the list itself must be empty
          · simp [HashObj.block_size] at h64
          · exact hnil
        subst this
        simp [hashReadLoopFuel, hempty]
      · have hne : remaining ≠ [] := by
          intro hnil
          subst hnil
          simp [List.take_nil] at hempty
        have hlen : (remaining.drop (h.block_size)).length ≤ n := by
          have hpos : 0 < remaining.length := List.length_pos.mpr hne
          have : (remaining.drop (h.block_size)).length = remaining.length - h.block_size := by
            simp [List.length_drop]
          rw [this]
          simp [HashObj.block_size]
          omega
        calc (hashReadLoopFuel (n + 1) h remaining).buf
            = (hashReadLoopFuel n (h.update (remaining.take h.block_size))
                (remaining.drop h.block_size)).buf := by
              simp only [hashReadLoopFuel, hempty]
              simp
          _ = (h.update (remaining.take h.block_size)).buf ++ remaining.drop h.block_size :=
              ih _ _ hlen
          _ = h.buf ++ remaining := by
              simp [HashObj.update, List.append_assoc, List.take_append_drop]

/-- The chunked read loop accumulates exactly the whole file. -/
theorem hashReadLoop_buf (h : HashObj) (contents : List Nat) :
    (hashReadLoop h contents).buf = h.buf ++ contents :=
  hashReadLoopFuel_buf contents.length h contents (Nat.le_refl _)

/-- C9: for every readable file, `hash_script_file` returns the lowercase
hexadecimal SHA-256 digest of the file's complete byte contents — the
chunked reading loop is equivalent to hashing the whole file in one pass —
and any two files with identical contents yield the same version string
regardless of their paths. -/
theorem hash_script_file_digest (fs : String → Option (List Nat)) (p1 p2 : String)
    (c : List Nat) (h1 : fs p1 = some c) (h2 : fs p2 = some c) :
    hash_script_file fs p1 = some (sha256hex c) ∧
    hash_script_file fs p1 = hash_script_file fs p2 := by
  have key : hash_script_file fs p1 = some (sha256hex c) := by
    simp only [hash_script_file, h1]
    have : (hashReadLoop ⟨[]⟩ c).buf = c := by
      simpa using hashReadLoop_buf ⟨[]⟩ c
    simp [HashObj.hexdigest, this]
  refine ⟨key, ?_⟩
  have key2 : hash_script_file fs p2 = some (sha256hex c) := by
    simp only [hash_script_file, h2]
    have : (hashReadLoop ⟨[]⟩ c).buf = c := by
      simpa using hashReadLoop_buf ⟨[]⟩ c
    simp [HashObj.hexdigest, this]
  rw [key, key2]

/-- A two-file file system used to instantiate `hash_script_file_digest`:
the same 130 bytes (spanning three read chunks) under two different paths. -/
def twoFileFS : String → Option (List Nat) := fun p =>
  if p = "proj/flyte/workflows/example.py" ∨ p = "copy/example.py" then
    some (List.replicate 130 65)
  else none

/-- Witness for C9 at a concrete file system: both paths carry the same
contents, and the digest is the single-pass digest of those contents. -/
theorem hash_script_file_digest_witness :
    hash_script_file twoFileFS "proj/flyte/workflows/example.py" =
      some (sha256hex (List.replicate 130 65)) ∧
    hash_script_file twoFileFS "proj/flyte/workflows/example.py" =
      hash_script_file twoFileFS "copy/example.py" :=
  hash_script_file_digest twoFileFS "proj/flyte/workflows/example.py" "copy/example.py"
    (List.replicate 130 65) (by decide) (by decide)

/-! ## `flytekit/tools/script_mode.py`: `compress_single_script`

The source-tree file system is again a map, here `String → Bool` (does a
path exist).  The function's observable behaviour is the ordered list of
file-system operations it performs, or the exception it raises.  Python
semantics that matter here: `init_file.exists` (without parentheses) is
attribute access producing a *bound method object*, and `if m:` on a bound
method consults `bool(m)`, which is always `True` because method objects
define neither `__bool__` nor `__len__`. -/

/-- A Python bound-method object, as produced by attribute access such as
`init_file.exists` (note: no call parentheses in the source). -/
structure PyBoundMethod where
  selfPath : String
  methodName : String

/-- Python truthiness of a bound-method object: always `true` (method
objects define neither `__bool__` nor `__len__`, so `bool(m)` falls back to
the default object truthiness). -/
def PyBoundMethod.truthy (_m : PyBoundMethod) : Bool := true

/-- The attribute access `Path(p).exists` — the bound method, not its
result. -/
def pathExistsAttr (p : String) : PyBoundMethod := ⟨p, "exists"⟩

/-- `os.path.join` for the non-absolute components used here. -/
def pathJoin (a b : String) : String := if a = "" then b else a ++ "/" ++ b

/-- One observable file-system operation of `compress_single_script`. -/
inductive FileOp
  | makedirs (path : String)
  | copy (src dst : String)
  | tarAdd (dir dest : String)

/-- `shutil.copy(src, dst)`: raises `FileNotFoundError` when the source
does not exist, otherwise performs the copy. -/
def shutil_copy (fs : String → Bool) (src dst : String) : Except String FileOp :=
  if fs src then Except.ok (FileOp.copy src dst) else Except.error ("FileNotFoundError: " ++ src)

/-- The `for p in pkgs[:-1]:` loop of `compress_single_script`, exactly as
written in the source: make the package directory, advance the three
paths, and guard the `__init__.py` copy with `if init_file.exists:` — the
truthiness of the bound method, not of a call to it.  Returns the
operations performed plus the final `source_path`/`destination_path`. -/
def compressLoop (fs : String → Bool) (tmp_dir : String) :
    List String → String → String → String → Except String (List FileOp × String × String)
  | [], source_path, destination_path, _script_relative_path =>
      Except.ok ([], source_path, destination_path)
  | p :: rest, source_path, destination_path, script_relative_path =>
      let mk := FileOp.makedirs (pathJoin destination_path p)
      let source_path' := pathJoin source_path p
      let destination_path' := pathJoin destination_path p
      let script_relative_path' := pathJoin script_relative_path p
      let init_file := pathJoin source_path' "__init__.py"
      if (pathExistsAttr init_file).truthy then
        match shutil_copy fs init_file
            (pathJoin (pathJoin (pathJoin tmp_dir "code") script_relative_path') "__init__.py") with
        | Except.error e => Except.error e
        | Except.ok cp =>
            match compressLoop fs tmp_dir rest source_path' destination_path' script_relative_path' with
            | Except.error e => Except.error e
            | Except.ok (ops, sp, dp) => Except.ok (mk :: cp :: ops, sp, dp)
      else
        match compressLoop fs tmp_dir rest source_path' destination_path' script_relative_path' with
        | Except.error e => Except.error e
        | Except.ok (ops, sp, dp) => Except.ok (mk :: ops, sp, dp)

/-- The same loop with the guard the surrounding code evidently intended,
`if init_file.exists():` — actually consulting the file system, and
skipping the copy when the package has no `__init__.py`. -/
def compressLoopIntended (fs : String → Bool) (tmp_dir : String) :
    List String → String → String → String → Except String (List FileOp × String × String)
  | [], source_path, destination_path, _script_relative_path =>
      Except.ok ([], source_path, destination_path)
  | p :: rest, source_path, destination_path, script_relative_path =>
      let mk := FileOp.makedirs (pathJoin destination_path p)
      let source_path' := pathJoin source_path p
      let destination_path' := pathJoin destination_path p
      let script_relative_path' := pathJoin script_relative_path p
      let init_file := pathJoin source_path' "__init__.py"
      if fs init_file then
        match shutil_copy fs init_file
            (pathJoin (pathJoin (pathJoin tmp_dir "code") script_relative_path') "__init__.py") with
        | Except.error e => Except.error e
        | Except.ok cp =>
            match compressLoopIntended fs tmp_dir rest source_path' destination_path' script_relative_path' with
            | Except.error e => Except.error e
            | Except.ok (ops, sp, dp) => Except.ok (mk :: cp :: ops, sp, dp)
      else
        match compressLoopIntended fs tmp_dir rest source_path' destination_path' script_relative_path' with
        | Except.error e => Except.error e
        | Except.ok (ops, sp, dp) => Except.ok (mk :: ops, sp, dp)

/-- `full_module_name.split(".")` of Python, written as structural
recursion over the character list: split on every dot, keeping empty
components (`"a.b.c" ↦ ["a", "b", "c"]`, `"abc" ↦ ["abc"]`). -/
def splitOnDotAux : List Char → List Char → List String
  | [], acc => [⟨acc.reverse⟩]
  | c :: cs, acc =>
      if c = '.' then (⟨acc.reverse⟩ : String) :: splitOnDotAux cs []
      else splitOnDotAux cs (c :: acc)

/-- Python's `s.split(".")`. -/
def splitOnDot (s : String) : List String := splitOnDotAux s.data []

/-- `compress_single_script(absolute_project_path, destination, version,
full_module_name)`: run the package loop over all but the last module
component, then copy the script itself and tar the staged tree.  The
temporary directory name is fixed since only relative structure matters. -/
def compress_single_script (fs : String → Bool)
    (absolute_project_path destination _version full_module_name : String) :
    Except String (List FileOp) :=
  let tmp_dir := "tmp"
  let destination_path := pathJoin tmp_dir "code"
  let pkgs := splitOnDot full_module_name
  match compressLoop fs tmp_dir pkgs.dropLast absolute_project_path destination_path "" with
  | Except.error e => Except.error e
  | Except.ok (ops, sp, dp) =>
      let script_file := pathJoin sp ((pkgs.getLastD "") ++ ".py")
      let script_file_destination := pathJoin dp ((pkgs.getLastD "") ++ ".py")
      match shutil_copy fs script_file script_file_destination with
      | Except.error e => Except.error e
      | Except.ok cp => Except.ok (ops ++ [cp, FileOp.tarAdd (pathJoin tmp_dir "code") destination])

/-- C10: in `compress_single_script`, the guard `if init_file.exists:`
tests the truthiness of the bound method object rather than calling it, so
it always evaluates true; the `__init__.py` copy is therefore attempted
unconditionally (recorded when the file exists, `FileNotFoundError` from
`shutil.copy` when it does not, where the intended called guard would have
skipped), and the error propagates out of `compress_single_script`. -/
theorem compress_guard_always_true :
    (∀ p : String, (pathExistsAttr p).truthy = true) ∧
    (∀ (fs : String → Bool) (tmp p : String) (rest : List String) (sp dp rel : String),
      fs (pathJoin (pathJoin sp p) "__init__.py") = true →
      compressLoop fs tmp (p :: rest) sp dp rel =
        match compressLoop fs tmp rest (pathJoin sp p) (pathJoin dp p) (pathJoin rel p) with
        | Except.error e => Except.error e
        | Except.ok (ops, s, d) =>
            Except.ok (FileOp.makedirs (pathJoin dp p) ::
              FileOp.copy (pathJoin (pathJoin sp p) "__init__.py")
                (pathJoin (pathJoin (pathJoin tmp "code") (pathJoin rel p)) "__init__.py") ::
              ops, s, d)) ∧
    (∀ (fs : String → Bool) (tmp p : String) (rest : List String) (sp dp rel : String),
      fs (pathJoin (pathJoin sp p) "__init__.py") = false →
      compressLoop fs tmp (p :: rest) sp dp rel =
        Except.error ("FileNotFoundError: " ++ pathJoin (pathJoin sp p) "__init__.py")) ∧
    (∀ (fs : String → Bool) (proj dest ver mod p : String) (rest : List String),
      (splitOnDot mod).dropLast = p :: rest →
      fs (pathJoin (pathJoin proj p) "__init__.py") = false →
      compress_single_script fs proj dest ver mod =
        Except.error ("FileNotFoundError: " ++ pathJoin (pathJoin proj p) "__init__.py")) ∧
    (∀ (fs : String → Bool) (tmp p : String) (rest : List String) (sp dp rel : String),
      fs (pathJoin (pathJoin sp p) "__init__.py") = false →
      compressLoopIntended fs tmp (p :: rest) sp dp rel =
        match compressLoopIntended fs tmp rest (pathJoin sp p) (pathJoin dp p) (pathJoin rel p) with
        | Except.error e => Except.error e
        | Except.ok (ops, s, d) => Except.ok (FileOp.makedirs (pathJoin dp p) :: ops, s, d)) := by
  refine ⟨fun _ => rfl, ?_, ?_, ?_, ?_⟩
  · intro fs tmp p rest sp dp rel hex
    simp only [compressLoop, PyBoundMethod.truthy, if_true, shutil_copy, hex]
  · intro fs tmp p rest sp dp rel hmiss
    simp only [compressLoop, PyBoundMethod.truthy, if_true, shutil_copy, hmiss]
    simp
  · intro fs proj dest ver mod p rest hsplit hmiss
    have hloop : compressLoop fs "tmp" (p :: rest) proj (pathJoin "tmp" "code") "" =
        Except.error ("FileNotFoundError: " ++ pathJoin (pathJoin proj p) "__init__.py") := by
      simp only [compressLoop, PyBoundMethod.truthy, if_true, shutil_copy, hmiss]
      simp
    simp only [compress_single_script, hsplit, hloop]
  · intro fs tmp p rest sp dp rel hmiss
    simp only [compressLoopIntended, hmiss]
    simp

/-- A source tree for the C10 witness: `flyte/workflows/example.py` and
`flyte/workflows/__init__.py` exist, but `flyte/__init__.py` is missing. -/
def brokenTreeFS : String → Bool := fun s =>
  s = "proj/flyte/workflows/example.py" ∨ s = "proj/flyte/workflows/__init__.py"

/-- Witness for C10: on the concrete tree missing `flyte/__init__.py`,
compressing `flyte.workflows.example` raises `FileNotFoundError` from the
unconditional copy, while the intended called guard would have skipped. -/
theorem compress_guard_always_true_witness :
    (pathExistsAttr "proj/flyte/__init__.py").truthy = true ∧
    compress_single_script brokenTreeFS "proj" "dest.tar.gz" "v1" "flyte.workflows.example" =
      Except.error ("FileNotFoundError: " ++ pathJoin (pathJoin "proj" "flyte") "__init__.py") ∧
    compressLoopIntended brokenTreeFS "tmp" ["flyte", "workflows"] "proj" (pathJoin "tmp" "code") "" =
      match compressLoopIntended brokenTreeFS "tmp" ["workflows"] (pathJoin "proj" "flyte")
          (pathJoin (pathJoin "tmp" "code") "flyte") (pathJoin "" "flyte") with
      | Except.error e => Except.error e
      | Except.ok (ops, s, d) =>
          Except.ok (FileOp.makedirs (pathJoin (pathJoin "tmp" "code") "flyte") :: ops, s, d) :=
  ⟨compress_guard_always_true.1 "proj/flyte/__init__.py",
   compress_guard_always_true.2.2.2.1 brokenTreeFS "proj" "dest.tar.gz" "v1"
     "flyte.workflows.example" "flyte" ["workflows"] (by decide) (by decide),
   compress_guard_always_true.2.2.2.2 brokenTreeFS "tmp" "flyte" ["workflows"] "proj"
     (pathJoin "tmp" "code") "" (by decide)⟩

/-! ## The translation layer (context stack, promises, graph builder)

The core modules (`flytekit.annotated.context_manager`, `promise`,
`workflow`, `condition`, `task`) are exercised by the unit tests in this
source tree but their code is not shipped with it.  They are therefore
modelled from the specification (§3–§4.6 of `spec.md`); every definition
below whose doc comment starts `Modelled from the spec:` stands in for
such a missing piece.  Workflow bodies are written in a small statement
language whose arguments can be literals, previously bound variables, or
lists thereof (lists are encoded as cons chains). -/

/-- Modelled from the spec: a native value handled by the type engine
(integers and strings as used by the unit tests, plus ordered
sequences). -/
inductive Val
  | i (n : Int)
  | s (str : String)
  | vlist (xs : List Val)

/-- Modelled from the spec: what a promise's node reference points at —
either a node created in the current compilation, or a workflow-level
input (the global input frame, which is not a node). -/
inductive RefTarget
  | node (id : Nat)
  | wfInput

/-- Modelled from the spec: the node ids a reference target contributes to
upstream-edge inference (workflow inputs contribute none). -/
def RefTarget.nodeIds : RefTarget → List Nat
  | .node i => [i]
  | .wfInput => []

/-- Modelled from the spec: a `NodeOutput` back-reference
`(node, output_variable_name)`; non-owning, the promise never owns the
node. -/
structure NodeOutputRef where
  target : RefTarget
  var : String

/-- Modelled from the spec: a `Promise` — `{var, val, ref}` with exactly
one of `val`/`ref` set, enforced by the two constructors. -/
inductive Promise
  | ready (var : String) (val : Val)
  | pend (var : String) (ref : NodeOutputRef)

/-- `is_ready` is true iff the value is set. -/
def Promise.is_ready : Promise → Bool
  | .ready _ _ => true
  | .pend _ _ => false

/-- Modelled from the spec: the node ids referenced by a promise. -/
def Promise.nodeRefs : Promise → List Nat
  | .ready _ _ => []
  | .pend _ r => r.target.nodeIds

/-- Modelled from the spec: binding data — a literal constant, a promise
reference, or a nested binding collection (encoded as a cons chain,
preserving element order). -/
inductive BindingData
  | scalar (v : Val)
  | promiseRef (r : NodeOutputRef)
  | nilColl
  | consColl (head tail : BindingData)

/-- Modelled from the spec: the node ids referenced by binding data. -/
def BindingData.refs : BindingData → List Nat
  | .scalar _ => []
  | .promiseRef r => r.target.nodeIds
  | .nilColl => []
  | .consColl b bs => b.refs ++ bs.refs

/-- Modelled from the spec: a named binding of one input/output
variable. -/
structure Binding where
  var : String
  binding : BindingData

/-- Node ids referenced by a list of named bindings, in order. -/
def bindingsRefs : List Binding → List Nat
  | [] => []
  | b :: bs => b.binding.refs ++ bindingsRefs bs

/-- Node ids referenced by keyword arguments already converted to binding
data. -/
def argsRefs : List (String × BindingData) → List Nat
  | [] => []
  | a :: rest => a.2.refs ++ argsRefs rest

/-- Modelled from the spec: a `Node` — id assigned in traversal order, the
unit-of-work's name, its input bindings, and the upstream node ids derived
from every promise-typed input. -/
structure Node where
  id : Nat
  taskName : String
  bindings : List Binding
  upstream : List Nat

/-- The string form `node-0`, `node-1`, … of a node id. -/
def Node.idString (n : Node) : String := "node-" ++ toString n.id

/-- Modelled from the spec: a `CompilationState` — the ordered sequence of
nodes built so far; the monotonically increasing node-id counter is the
length of that sequence. -/
structure CompilationState where
  nodes : List Node

/-- Modelled from the spec (§4.4 steps 2–4): allocate the next node id,
derive the upstream set from the argument bindings, and append the node to
the compilation state's ordered sequence.  Returns the new state and the
id of the created node. -/
def createNode (cs : CompilationState) (taskName : String)
    (args : List (String × BindingData)) : CompilationState × Nat :=
  let nid := cs.nodes.length
  let node : Node :=
    { id := nid
      taskName := taskName
      bindings := args.map fun a => { var := a.1, binding := a.2 }
      upstream := (argsRefs args).dedup }
  (⟨cs.nodes ++ [node]⟩, nid)

/-- Modelled from the spec: a unit-of-work (task): its name, whether it is
a pure remote reference, its declared inputs and outputs, and its real
body (used only during real execution, never while tracing). -/
structure Task where
  name : String
  isReference : Bool
  inputs : List String
  outputs : List String
  run : List (String × Val) → List Val

/-- Modelled from the spec: an argument expression in a workflow body — a
previously bound variable, a literal, or a list of expressions (encoded as
a cons chain). -/
inductive Expr
  | evar (name : String)
  | lit (v : Val)
  | nilE
  | consE (head tail : Expr)

/-- Modelled from the spec: the comparison operators a promise supports. -/
inductive BoolOp
  | beq
  | bne
  | blt
  | ble
  | bgt
  | bge

/-- Modelled from the spec: a comparison/conjunction expression tree over
argument expressions, lazily evaluable. -/
inductive CondExpr
  | cmp (lhs : Expr) (op : BoolOp) (rhs : Expr)
  | conj (a b : CondExpr)
  | disj (a b : CondExpr)

/-- Modelled from the spec: one `if_/elif_(expr).then(body)` arm of a
conditional chain; the body is a unit-of-work call. -/
structure CondCase where
  cond : CondExpr
  thenTask : Task
  thenArgs : List (String × Expr)

/-- Modelled from the spec: the terminal else arm — either a body or an
explicit failure directive carrying a user-supplied message. -/
inductive ElseClause
  | thenCase (t : Task) (args : List (String × Expr))
  | failMsg (msg : String)

/-- Modelled from the spec: a conditional chain; `elseClause = none` means
the chain was never closed with `else_()`. -/
structure CondChain where
  name : String
  cases : List CondCase
  elseClause : Option ElseClause

/-- Modelled from the spec: one statement of a pipeline body — binding the
outputs of a unit-of-work call, or binding the value of a conditional
chain. -/
inductive Stmt
  | callTask (resultVars : List String) (t : Task) (args : List (String × Expr))
  | condStmt (resultVar : String) (chain : CondChain)

/-- Modelled from the spec: a pipeline (workflow) definition — declared
inputs and outputs, the body, and the elements of the return
expression. -/
structure Workflow where
  name : String
  inputs : List String
  outputs : List String
  body : List Stmt
  ret : List Expr

/-- Modelled from the spec (§7 error taxonomy): the exception classes the
core can raise.  `definitionError` is the `DefinitionError` class (raised
as an `AssertionError` by the implementation under test),
`notImplementedError` the `NotImplementedError` class raised by an
unterminated conditional chain, `valueError` the `ValueError` class raised
by an exhausted conditional whose else arm is a failure directive, and
`remoteRefError` the error for executing a remote reference locally. -/
inductive Err
  | definitionError
  | notImplementedError
  | valueError (msg : String)
  | remoteRefError (msg : String)
  | lookupError
  | typeError
deriving DecidableEq

/-- An environment of traced promises, most recent first. -/
abbrev TraceEnv := List (String × Promise)

/-- Look a variable up in a trace environment. -/
def lookupEnv (env : TraceEnv) (n : String) : Option Promise :=
  (env.find? fun p => p.1 == n).map (·.2)

/-- Modelled from the spec (§4.3): a promise argument becomes a
reference binding; a ready promise contributes its literal. -/
def promiseToBinding : Promise → BindingData
  | .ready _ v => .scalar v
  | .pend _ r => .promiseRef r

/-- Modelled from the spec (§4.3 binding construction): each argument that
is a promise becomes a reference binding, each plain value a literal
binding, and each sequence a binding collection preserving element
order. -/
def exprToBinding (env : TraceEnv) : Expr → Option BindingData
  | .evar n => (lookupEnv env n).map promiseToBinding
  | .lit v => some (.scalar v)
  | .nilE => some .nilColl
  | .consE e es =>
      match exprToBinding env e, exprToBinding env es with
      | some b, some bs => some (.consColl b bs)
      | _, _ => none

/-- Convert keyword arguments to named binding data. -/
def argsToBindings (env : TraceEnv) : List (String × Expr) → Option (List (String × BindingData))
  | [] => some []
  | a :: rest =>
      match exprToBinding env a.2, argsToBindings env rest with
      | some b, some bs => some ((a.1, b) :: bs)
      | _, _ => none

/-- The binding data collecting every operand of a condition expression
(the branch node's inputs). -/
def condExprBinding (env : TraceEnv) : CondExpr → Option BindingData
  | .cmp l _ r =>
      match exprToBinding env l, exprToBinding env r with
      | some bl, some br => some (.consColl bl (.consColl br .nilColl))
      | _, _ => none
  | .conj a b | .disj a b =>
      match condExprBinding env a, condExprBinding env b with
      | some ba, some bb => some (.consColl ba bb)
      | _, _ => none

/-- The binding data collecting the operands of every arm condition of a
conditional chain. -/
def condCasesBinding (env : TraceEnv) : List CondCase → Option BindingData
  | [] => some .nilColl
  | c :: rest =>
      match condExprBinding env c.cond, condCasesBinding env rest with
      | some b, some bs => some (.consColl b bs)
      | _, _ => none

/-- Modelled from the spec (§4.4 step 5): one pending output promise per
declared output variable of the freshly created node, paired with the
body variable it is bound to. -/
def outPromises (nid : Nat) (resultVars declaredOuts : List String) : TraceEnv :=
  (resultVars.zip declaredOuts).map fun p => (p.1, Promise.pend p.2 ⟨.node nid, p.2⟩)

/-- Modelled from the spec (§4.4 graph builder): trace a pipeline body
under a compilation state.  Each unit-of-work call converts its keyword
arguments to bindings, allocates the next node, and binds its result
variables to pending promises referencing the new node.  A conditional
chain must have been closed with an else arm — referencing an unterminated
chain raises the `NotImplementedError`-class error — and otherwise
contributes one branch node whose inputs are the operands of its arm
conditions (arm bodies are traced into isolated subsequences that are
spliced in as children of the branch node, and are not part of this
top-level sequence). -/
def traceStmts (cs : CompilationState) (env : TraceEnv) :
    List Stmt → Except Err (CompilationState × TraceEnv)
  | [] => .ok (cs, env)
  | .callTask outs t args :: rest =>
      match argsToBindings env args with
      | none => .error .lookupError
      | some bds =>
          let r := createNode cs t.name bds
          traceStmts r.1 (outPromises r.2 outs t.outputs ++ env) rest
  | .condStmt out chain :: rest =>
      match chain.elseClause with
      | none => .error .notImplementedError
      | some _ =>
          match condCasesBinding env chain.cases with
          | none => .error .lookupError
          | some b =>
              let r := createNode cs ("branch-" ++ chain.name) [(chain.name, b)]
              traceStmts r.1 ((out, Promise.pend out ⟨.node r.2, out⟩) :: env) rest

/-- Modelled from the spec: the input environment of a trace — every
declared pipeline input is a pending promise referencing the global input
frame (not a node). -/
def wfInputEnv (inputs : List String) : TraceEnv :=
  inputs.map fun n => (n, Promise.pend n ⟨.wfInput, n⟩)

/-- Convert the return expression elements to binding data. -/
def retToBindings (env : TraceEnv) : List Expr → Option (List BindingData)
  | [] => some []
  | e :: es =>
      match exprToBinding env e, retToBindings env es with
      | some b, some bs => some (b :: bs)
      | _, _ => none

/-- Modelled from the spec: the result of compiling a pipeline definition —
the node sequence and the pipeline's output bindings. -/
structure CompiledWorkflow where
  state : CompilationState
  outputBindings : List Binding

/-- Modelled from the spec (§2 control flow, §4.4): a pipeline definition
is traced once eagerly under a throwaway compilation context; its return
expression is captured as the pipeline's output bindings (named `out_0`,
`out_1`, …), and an arity mismatch between the declared output count and
the return expression's element count is a definition-time error raised
immediately. -/
def defineWorkflow (wf : Workflow) : Except Err CompiledWorkflow :=
  match traceStmts ⟨[]⟩ (wfInputEnv wf.inputs) wf.body with
  | .error e => .error e
  | .ok (cs, env) =>
      match retToBindings env wf.ret with
      | none => .error .lookupError
      | some rbs =>
          if wf.outputs.length = rbs.length then
            .ok ⟨cs, rbs.enum.map fun p => ⟨"out_" ++ toString p.1, p.2⟩⟩
          else .error .definitionError

/-! ### Real (local) execution semantics -/

/-- A value environment during real execution, most recent first. -/
abbrev ValEnv := List (String × Val)

/-- Look a variable up in a value environment. -/
def lookupVal (env : ValEnv) (n : String) : Option Val :=
  (env.find? fun p => p.1 == n).map (·.2)

/-- Modelled from the spec: evaluate an argument expression against real
values. -/
def evalExpr (env : ValEnv) : Expr → Except Err Val
  | .evar n =>
      match lookupVal env n with
      | some v => .ok v
      | none => .error .lookupError
  | .lit v => .ok v
  | .nilE => .ok (.vlist [])
  | .consE e es =>
      match evalExpr env e, evalExpr env es with
      | .ok v, .ok (.vlist l) => .ok (.vlist (v :: l))
      | .ok _, .ok _ => .error .typeError
      | .error e, _ => .error e
      | _, .error e => .error e

/-- Evaluate keyword arguments against real values. -/
def evalNamedArgs (env : ValEnv) : List (String × Expr) → Except Err (List (String × Val))
  | [] => .ok []
  | a :: rest =>
      match evalExpr env a.2, evalNamedArgs env rest with
      | .ok v, .ok vs => .ok ((a.1, v) :: vs)
      | .error e, _ => .error e
      | _, .error e => .error e

/-- Modelled from the spec (§4.3 `eval()`): the concrete comparison of two
resolved literals.  Equality and ordering are defined on integers,
equality also on strings; other shapes are a conversion error. -/
def evalCmpOp : BoolOp → Val → Val → Except Err Bool
  | .beq, .i a, .i b => .ok (a = b)
  | .bne, .i a, .i b => .ok (a ≠ b)
  | .blt, .i a, .i b => .ok (a < b)
  | .ble, .i a, .i b => .ok (a ≤ b)
  | .bgt, .i a, .i b => .ok (b < a)
  | .bge, .i a, .i b => .ok (b ≤ a)
  | .beq, .s a, .s b => .ok (a = b)
  | .bne, .s a, .s b => .ok (a ≠ b)
  | _, _, _ => .error .typeError

/-- Modelled from the spec: fully-resolved evaluation of a condition
expression; conjunction and disjunction follow standard boolean
semantics. -/
def evalCondExpr (env : ValEnv) : CondExpr → Except Err Bool
  | .cmp l op r =>
      match evalExpr env l, evalExpr env r with
      | .ok a, .ok b => evalCmpOp op a b
      | .error e, _ => .error e
      | _, .error e => .error e
  | .conj a b =>
      match evalCondExpr env a, evalCondExpr env b with
      | .ok x, .ok y => .ok (x && y)
      | .error e, _ => .error e
      | _, .error e => .error e
  | .disj a b =>
      match evalCondExpr env a, evalCondExpr env b with
      | .ok x, .ok y => .ok (x || y)
      | .error e, _ => .error e
      | _, .error e => .error e

/-- Test substitutions installed by `task_mock`/`patch`, keyed by task
name. -/
abbrev Mocks := String → Option (List Val)

/-- No substitutions installed. -/
def emptyMocks : Mocks := fun _ => none

/-- Modelled from the spec (§6): the message of the error raised when a
remote reference entity is executed without a test substitution (the unit
tests check for the fragment "Remote reference tasks cannot be run"). -/
def remoteRefMsg : String :=
  "Remote reference tasks cannot be run, please mock this out before running the workflow."

/-- Modelled from the spec: execute one unit-of-work for real.  A test
substitution takes precedence; without one, a pure remote reference cannot
run locally and raises the remote-reference execution error; otherwise the
task body runs on the resolved inputs. -/
def execTask (mocks : Mocks) (t : Task) (inputs : List (String × Val)) : Except Err (List Val) :=
  match mocks t.name with
  | some vs => .ok vs
  | none =>
      if t.isReference then .error (.remoteRefError remoteRefMsg)
      else .ok (t.run inputs)

/-- Run one conditional arm body (a unit-of-work call with a single
result). -/
def runArm (mocks : Mocks) (env : ValEnv) (t : Task) (targs : List (String × Expr)) :
    Except Err Val :=
  match evalNamedArgs env targs with
  | .error e => .error e
  | .ok ins =>
      match execTask mocks t ins with
      | .error e => .error e
      | .ok (v :: _) => .ok v
      | .ok [] => .error .typeError

/-- Modelled from the spec (§4.5): real execution of a closed conditional
chain — test each arm's condition in declared order and take the first
true arm's body value; if no arm matches, run the else body, or raise the
`ValueError`-class error carrying the supplied message when the else arm
is a failure directive. -/
def runChain (mocks : Mocks) (env : ValEnv) : List CondCase → ElseClause → Except Err Val
  | [], .thenCase t targs => runArm mocks env t targs
  | [], .failMsg m => .error (.valueError m)
  | c :: rest, els =>
      match evalCondExpr env c.cond with
      | .error e => .error e
      | .ok true => runArm mocks env c.thenTask c.thenArgs
      | .ok false => runChain mocks env rest els

/-- Modelled from the spec: real execution of a pipeline body.  Each
unit-of-work call executes for real (its computed literals flow on); a
conditional chain must be closed, and its value is the selected arm's
result.  Every error — including a conditional failure directive — is
propagated to the caller unswallowed. -/
def runStmts (mocks : Mocks) (env : ValEnv) : List Stmt → Except Err ValEnv
  | [] => .ok env
  | .callTask outs t args :: rest =>
      match evalNamedArgs env args with
      | .error e => .error e
      | .ok ins =>
          match execTask mocks t ins with
          | .error e => .error e
          | .ok vs => runStmts mocks (outs.zip vs ++ env) rest
  | .condStmt out chain :: rest =>
      match chain.elseClause with
      | none => .error .notImplementedError
      | some els =>
          match runChain mocks env chain.cases els with
          | .error e => .error e
          | .ok v => runStmts mocks ((out, v) :: env) rest

/-- Evaluate the return expression elements against real values. -/
def evalRet (env : ValEnv) : List Expr → Except Err (List Val)
  | [] => .ok []
  | e :: es =>
      match evalExpr env e, evalRet env es with
      | .ok v, .ok vs => .ok (v :: vs)
      | .error e, _ => .error e
      | _, .error e => .error e

/-- Modelled from the spec: run a pipeline body for real on native
argument values and evaluate its return expression. -/
def localRunWorkflow (mocks : Mocks) (wf : Workflow) (args : ValEnv) : Except Err (List Val) :=
  match runStmts mocks args wf.body with
  | .error e => .error e
  | .ok env => evalRet env wf.ret

/-! ### The context stack and pipeline invocation -/

/-- Modelled from the spec: the execution-state tag of a context frame. -/
inductive ExecMode
  | localWorkflowExec
  | localTaskExec
  | taskExec
deriving DecidableEq

/-- Modelled from the spec: the parts of a context frame that determine
call semantics — an optional compilation state and an optional execution
state. -/
structure Context where
  compState : Option CompilationState
  execMode : Option ExecMode

/-- What a pipeline invocation returns: native values, or promise
objects. -/
inductive CallResult
  | native (vs : List Val)
  | promises (ps : List Promise)

/-- Modelled from the spec (§2 control flow, §4.1): invoking a pipeline.
With an active compilation state the call is traced: it contributes one
node and returns pending promises.  With no compilation state but a
pre-existing `LOCAL_WORKFLOW_EXECUTION` context, the body runs for real
but the outputs come back as promises wrapping the computed literals.
Otherwise the invocation pushes its own local-workflow-execution scope,
runs for real, and returns native values. -/
def invokeWorkflow (ctx : Context) (mocks : Mocks) (wf : Workflow) (args : ValEnv) :
    Except Err (Context × CallResult) :=
  match ctx.compState with
  | some cs =>
      let bds := args.map fun a => (a.1, BindingData.scalar a.2)
      let r := createNode cs wf.name bds
      .ok ({ ctx with compState := some r.1 },
        .promises (wf.outputs.map fun o => .pend o ⟨.node r.2, o⟩))
  | none =>
      match ctx.execMode with
      | some .localWorkflowExec =>
          match localRunWorkflow mocks wf args with
          | .error e => .error e
          | .ok vs => .ok (ctx, .promises ((wf.outputs.zip vs).map fun p => .ready p.1 p.2))
      | _ =>
          match localRunWorkflow mocks wf args with
          | .error e => .error e
          | .ok vs => .ok (ctx, .native vs)

/-! ### The dynamic compiler -/

/-- Modelled from the spec: a `DynamicJobSpec` — a node sequence plus
output bindings, structurally identical to a compiled pipeline graph but
generated at task-run time. -/
structure DynamicJobSpec where
  nodes : List Node
  outputBindings : List Binding

/-- Assemble a binding collection from a list of binding data. -/
def listToColl : List BindingData → BindingData
  | [] => .nilColl
  | b :: bs => .consColl b (listToColl bs)

/-- Modelled from the spec (§4.6) and `test_wf1_with_dynamic`: the re-run
of a dynamic unit-of-work body of the shape
`for i in range(a): s.append(t(a=i))` — one unit-of-work call appended
per iteration, each accumulated through the graph builder. -/
def dynLoop (t : Task) : List Nat → CompilationState → CompilationState × List Promise
  | [], cs => (cs, [])
  | i :: is, cs =>
      let r := createNode cs t.name [("a", BindingData.scalar (.i (Int.ofNat i)))]
      let ps := t.outputs.map fun o => Promise.pend o ⟨.node r.2, o⟩
      let rest := dynLoop t is r.1
      (rest.1, ps ++ rest.2)

/-- Modelled from the spec (§4.6): `compile_into_workflow(ctx, a=…)` —
push a TASK_EXECUTION-tagged context with a fresh compilation state,
re-run the loop body with the real input bound, and package the resulting
node sequence and output bindings as a `DynamicJobSpec`. -/
def compile_into_workflow (_ctx : Context) (t : Task) (a : Nat) : DynamicJobSpec :=
  let innerCtx : Context := { compState := some ⟨[]⟩, execMode := some ExecMode.taskExec }
  let r := dynLoop t (List.range a) (innerCtx.compState.getD ⟨[]⟩)
  { nodes := r.1.nodes
    outputBindings := [⟨"o0", listToColl (r.2.map promiseToBinding)⟩] }

/-! ### Concrete fixtures from `test_type_hints.py` -/

/-- The task `t1(a: int) -> (t1_int_output=int, c=str)` returning
`(a + 2, "world")`, from `test_wf1`/`test_wf1_run`. -/
def t1Task : Task :=
  { name := "t1"
    isReference := false
    inputs := ["a"]
    outputs := ["t1_int_output", "c"]
    run := fun ins =>
      match lookupVal ins "a" with
      | some (.i a) => [.i (a + 2), .s "world"]
      | _ => [] }

/-- The task `t2(a: str, b: str) -> str` returning `b + a`, from
`test_wf1`/`test_wf1_run`. -/
def t2Task : Task :=
  { name := "t2"
    isReference := false
    inputs := ["a", "b"]
    outputs := ["o0"]
    run := fun ins =>
      match lookupVal ins "a", lookupVal ins "b" with
      | some (.s a), some (.s b) => [.s (b ++ a)]
      | _, _ => [] }

/-- The pipeline `my_wf(a: int, b: str) -> (int, str)` of
`test_wf1`/`test_wf1_run`: `x, y = t1(a=a); d = t2(a=y, b=b); return x, d`. -/
def myWf : Workflow :=
  { name := "my_wf"
    inputs := ["a", "b"]
    outputs := ["o0", "o1"]
    body :=
      [Stmt.callTask ["x", "y"] t1Task [("a", .evar "a")],
       Stmt.callTask ["d"] t2Task [("a", .evar "y"), ("b", .evar "b")]]
    ret := [.evar "x", .evar "d"] }

/-- Direct invocation from the default context executes for real:
`my_wf(a=5, b="hello ") == (7, "hello world")` (`test_wf1_run`). -/
theorem myWf_run :
    invokeWorkflow ⟨none, none⟩ emptyMocks myWf [("a", .i 5), ("b", .s "hello ")] =
      .ok (⟨none, none⟩, .native [.i 7, .s "hello world"]) := rfl

/-! ### Claim C1: invocation outside compilation returns native values -/

/-- C1 counterexample: the claim "invoked with no active compilation
context ⇒ never Promise objects" is false as stated.  With no compilation
state but a pre-existing `LOCAL_WORKFLOW_EXECUTION` context (exactly the
situation of `test_promise_return`), invoking the pipeline returns Promise
objects wrapping the computed literals. -/
theorem invoke_no_compilation_promise_counterexample :
    (⟨none, some ExecMode.localWorkflowExec⟩ : Context).compState = none ∧
    invokeWorkflow ⟨none, some ExecMode.localWorkflowExec⟩ emptyMocks myWf
        [("a", .i 5), ("b", .s "hello ")] =
      .ok (⟨none, some ExecMode.localWorkflowExec⟩,
        .promises [.ready "o0" (.i 7), .ready "o1" (.s "hello world")]) :=
  ⟨rfl, rfl⟩

/-- C1 (amended): for every pipeline invoked with no active compilation
context *and no pre-existing local-workflow-execution context*, the
invocation executes every unit-of-work for real (via
`localRunWorkflow`) and returns native values, never Promise objects. -/
theorem invoke_default_context_native (ctx : Context) (mocks : Mocks) (wf : Workflow)
    (args : ValEnv) (r : Context × CallResult)
    (hcomp : ctx.compState = none)
    (hexec : ctx.execMode ≠ some ExecMode.localWorkflowExec)
    (h : invokeWorkflow ctx mocks wf args = .ok r) :
    ∃ vs, r = (ctx, .native vs) ∧ localRunWorkflow mocks wf args = .ok vs := by
  obtain ⟨cst, em⟩ := ctx
  simp only [Context.compState] at hcomp
  subst hcomp
  simp only [Context.execMode] at hexec
  match em with
  | some ExecMode.localWorkflowExec => exact absurd rfl hexec
  | none =>
      simp only [invokeWorkflow] at h
      cases hrun : localRunWorkflow mocks wf args with
      | error e => rw [hrun] at h; cases h
      | ok vs =>
          rw [hrun] at h
          cases h
          exact ⟨vs, rfl, rfl⟩
  | some ExecMode.localTaskExec =>
      simp only [invokeWorkflow] at h
      cases hrun : localRunWorkflow mocks wf args with
      | error e => rw [hrun] at h; cases h
      | ok vs =>
          rw [hrun] at h
          cases h
          exact ⟨vs, rfl, rfl⟩
  | some ExecMode.taskExec =>
      simp only [invokeWorkflow] at h
      cases hrun : localRunWorkflow mocks wf args with
      | error e => rw [hrun] at h; cases h
      | ok vs =>
          rw [hrun] at h
          cases h
          exact ⟨vs, rfl, rfl⟩

/-- Witness for the amended C1: invoking `my_wf(a=5, b="hello ")` from the
default context returns the native tuple `(7, "hello world")`
(`test_wf1_run`). -/
theorem invoke_default_context_native_witness :
    ∃ vs, ((⟨none, none⟩ : Context), CallResult.native [Val.i 7, Val.s "hello world"]) =
        ((⟨none, none⟩ : Context), CallResult.native vs) ∧
      localRunWorkflow emptyMocks myWf [("a", .i 5), ("b", .s "hello ")] = .ok vs :=
  invoke_default_context_native ⟨none, none⟩ emptyMocks myWf
    [("a", .i 5), ("b", .s "hello ")]
    (⟨none, none⟩, .native [.i 7, .s "hello world"])
    rfl (by decide) rfl

/-! ### Claim C8: the dynamic compiler materializes one node per iteration -/

theorem createNode_nodes_length (cs : CompilationState) (nm : String)
    (args : List (String × BindingData)) :
    (createNode cs nm args).1.nodes.length = cs.nodes.length + 1 := by
  simp [createNode]

theorem dynLoop_nodes_length (t : Task) :
    ∀ (is : List Nat) (cs : CompilationState),
      (dynLoop t is cs).1.nodes.length = cs.nodes.length + is.length := by
  intro is
  induction is with
  | nil => intro cs; simp [dynLoop]
  | cons i is ih =>
      intro cs
      simp only [dynLoop]
      rw [ih, createNode_nodes_length]
      simp [Nat.add_comm, Nat.add_assoc, Nat.add_left_comm]

/-- C8: a dynamic unit-of-work whose body appends one unit-of-work call
per iteration of a loop bounded by its input compiles, for any input `a`,
into a `DynamicJobSpec` with exactly `a` nodes — in particular exactly 5
nodes for `a = 5` (`test_wf1_with_dynamic`). -/
theorem dynamic_spec_node_count :
    (∀ (ctx : Context) (t : Task) (a : Nat),
      (compile_into_workflow ctx t a).nodes.length = a) ∧
    (∀ (ctx : Context) (t : Task), (compile_into_workflow ctx t 5).nodes.length = 5) := by
  have base : ∀ (ctx : Context) (t : Task) (a : Nat),
      (compile_into_workflow ctx t a).nodes.length = a := by
    intro ctx t a
    simp [compile_into_workflow, dynLoop_nodes_length]
  exact ⟨base, fun ctx t => base ctx t 5⟩

/-! ### Claim C7: remote references cannot run locally -/

/-- Boolean prefix test on character lists. -/
def charsPre : List Char → List Char → Bool
  | [], _ => true
  | _ :: _, [] => false
  | a :: as, b :: bs => a == b && charsPre as bs

/-- Boolean substring test on character lists. -/
def charsSub (pat : List Char) : List Char → Bool
  | [] => charsPre pat []
  | b :: bs => charsPre pat (b :: bs) || charsSub pat bs

/-- Does `s` contain `pat` as a contiguous substring? -/
def strHasSub (s pat : String) : Bool := charsSub pat.data s.data

/-- The reference task of `test_ref_task_more` (its body is never run). -/
def refTask : Task :=
  { name := "recipes.aaa.simple.join_strings"
    isReference := true
    inputs := ["a"]
    outputs := ["o0"]
    run := fun _ => [] }

/-- C7: a unit-of-work declared as a pure remote reference, invoked with
no mocked substitution installed, raises the remote-reference execution
error, whose message contains the identifiable fragment checked by
`test_ref_task_more`; the error propagates out of a pipeline body, and an
installed substitution takes over instead. -/
theorem remote_reference_execution_error :
    (∀ (mocks : Mocks) (t : Task) (ins : List (String × Val)),
      t.isReference = true → mocks t.name = none →
      execTask mocks t ins = .error (.remoteRefError remoteRefMsg)) ∧
    strHasSub remoteRefMsg "Remote reference tasks cannot be run" = true ∧
    (∀ (mocks : Mocks) (env : ValEnv) (outs : List String) (t : Task)
        (args : List (String × Expr)) (rest : List Stmt) (ins : List (String × Val)),
      evalNamedArgs env args = .ok ins → t.isReference = true → mocks t.name = none →
      runStmts mocks env (.callTask outs t args :: rest) =
        .error (.remoteRefError remoteRefMsg)) ∧
    (∀ (mocks : Mocks) (t : Task) (ins : List (String × Val)) (vs : List Val),
      mocks t.name = some vs → execTask mocks t ins = .ok vs) := by
  refine ⟨?_, by decide, ?_, ?_⟩
  · intro mocks t ins href hmock
    simp [execTask, hmock, href]
  · intro mocks env outs t args rest ins hargs href hmock
    simp [runStmts, hargs, execTask, hmock, href]
  · intro mocks t ins vs hmock
    simp [execTask, hmock]

/-- Witness for C7: the concrete reference task of `test_ref_task_more`
fails with the remote-reference error carrying the checked fragment. -/
theorem remote_reference_execution_error_witness :
    execTask emptyMocks refTask [("a", .vlist [.s "hello", .s "world"])] =
      .error (.remoteRefError remoteRefMsg) ∧
    strHasSub remoteRefMsg "Remote reference tasks cannot be run" = true :=
  ⟨remote_reference_execution_error.1 emptyMocks refTask
      [("a", .vlist [.s "hello", .s "world"])] rfl rfl,
   remote_reference_execution_error.2.1⟩

/-! ### Claim C5: an exhausted fail-else conditional raises `ValueError` -/

/-- C5: if no then-arm's condition evaluates true and the else arm is an
explicit fail directive, real execution raises the `ValueError`-class
error carrying the user-supplied message; the error propagates through the
pipeline body and out of the invocation unswallowed. -/
theorem branch_fail_raises_value_error :
    (∀ (mocks : Mocks) (env : ValEnv) (arms : List CondCase) (msg : String),
      (∀ c ∈ arms, evalCondExpr env c.cond = .ok false) →
      runChain mocks env arms (.failMsg msg) = .error (.valueError msg)) ∧
    (∀ (mocks : Mocks) (env : ValEnv) (out : String) (chain : CondChain)
        (rest : List Stmt) (e : Err) (els : ElseClause),
      chain.elseClause = some els →
      runChain mocks env chain.cases els = .error e →
      runStmts mocks env (.condStmt out chain :: rest) = .error e) ∧
    (∀ (ctx : Context) (mocks : Mocks) (wf : Workflow) (args : ValEnv) (e : Err),
      ctx.compState = none →
      localRunWorkflow mocks wf args = .error e →
      invokeWorkflow ctx mocks wf args = .error e) := by
  refine ⟨?_, ?_, ?_⟩
  · intro mocks env arms msg hall
    induction arms with
    | nil => simp [runChain]
    | cons c rest ih =>
        have hc : evalCondExpr env c.cond = .ok false := hall c (List.mem_cons_self c rest)
        have hrest : ∀ c' ∈ rest, evalCondExpr env c'.cond = .ok false :=
          fun c' hc' => hall c' (List.mem_cons_of_mem c hc')
        simp [runChain, hc, ih hrest]
  · intro mocks env out chain rest e els hels hchain
    simp [runStmts, hels, hchain]
  · intro ctx mocks wf args e hcomp hrun
    obtain ⟨cst, em⟩ := ctx
    simp only [Context.compState] at hcomp
    subst hcomp
    match em with
    | none => simp [invokeWorkflow, hrun]
    | some ExecMode.localWorkflowExec => simp [invokeWorkflow, hrun]
    | some ExecMode.localTaskExec => simp [invokeWorkflow, hrun]
    | some ExecMode.taskExec => simp [invokeWorkflow, hrun]

/-- The single-input echo task `t2(a: str) -> str` of the branch tests. -/
def tEcho : Task :=
  { name := "t2"
    isReference := false
    inputs := ["a"]
    outputs := ["o0"]
    run := fun ins =>
      match lookupVal ins "a" with
      | some v => [v]
      | none => [] }

/-- The first arm `if_(x == 4).then(t2(a=b))` of the branch tests. -/
def branchArm1 : CondCase :=
  { cond := .cmp (.evar "x") .beq (.lit (.i 4))
    thenTask := tEcho
    thenArgs := [("a", .evar "b")] }

/-- The second arm `elif_(x >= 5).then(t2(a=y))` of the branch tests. -/
def branchArm2 : CondCase :=
  { cond := .cmp (.evar "x") .bge (.lit (.i 5))
    thenTask := tEcho
    thenArgs := [("a", .evar "y")] }

/-- The pipeline of `test_wf1_branches_failing`: both arms guarded, else
arm a fail directive. -/
def branchFailWf : Workflow :=
  { name := "my_wf"
    inputs := ["a", "b"]
    outputs := ["o0", "o1"]
    body :=
      [Stmt.callTask ["x", "y"] t1Task [("a", .evar "a")],
       Stmt.condStmt "d" ⟨"test1", [branchArm1, branchArm2], some (.failMsg "All Branches failed")⟩]
    ret := [.evar "x", .evar "d"] }

/-- Witness for C5: with `a=1` (so `x=3`), both conditions are false, and
`my_wf(a=1, b="hello ")` raises `ValueError("All Branches failed")`
through the whole invocation (`test_wf1_branches_failing`). -/
theorem branch_fail_raises_value_error_witness :
    runChain emptyMocks [("x", .i 3), ("y", .s "world"), ("b", .s "hello ")]
        [branchArm1, branchArm2] (.failMsg "All Branches failed") =
      .error (.valueError "All Branches failed") ∧
    invokeWorkflow ⟨none, none⟩ emptyMocks branchFailWf [("a", .i 1), ("b", .s "hello ")] =
      .error (.valueError "All Branches failed") :=
  ⟨branch_fail_raises_value_error.1 emptyMocks
      [("x", .i 3), ("y", .s "world"), ("b", .s "hello ")]
      [branchArm1, branchArm2] "All Branches failed"
      (by
        intro c hc
        cases hc with
        | head => rfl
        | tail _ hc =>
            cases hc with
            | head => rfl
            | tail _ hc => cases hc),
   branch_fail_raises_value_error.2.2 ⟨none, none⟩ emptyMocks branchFailWf
      [("a", .i 1), ("b", .s "hello ")] (.valueError "All Branches failed") rfl rfl⟩

/-! ### Claim C4: else is mandatory; execution takes the first true arm -/

/-- C4: a conditional chain lacking a terminal else raises the
`NotImplementedError`-class error at definition (trace) time when the
resulting object is referenced; a chain with a terminal else, executed for
real, evaluates to exactly the result of the first arm whose condition is
true, in declared order. -/
theorem conditional_else_mandatory_first_true :
    (∀ (cs : CompilationState) (env : TraceEnv) (out nm : String)
        (arms : List CondCase) (rest : List Stmt),
      traceStmts cs env (.condStmt out ⟨nm, arms, none⟩ :: rest) =
        .error .notImplementedError) ∧
    (∀ (mocks : Mocks) (env : ValEnv) (els : ElseClause)
        (pre post : List CondCase) (c : CondCase),
      (∀ c' ∈ pre, evalCondExpr env c'.cond = .ok false) →
      evalCondExpr env c.cond = .ok true →
      runChain mocks env (pre ++ c :: post) els = runArm mocks env c.thenTask c.thenArgs) := by
  refine ⟨?_, ?_⟩
  · intro cs env out nm arms rest
    simp [traceStmts]
  · intro mocks env els pre post c hpre htrue
    induction pre with
    | nil => simp [runChain, htrue]
    | cons p ps ih =>
        have hp : evalCondExpr env p.cond = .ok false := hpre p (List.mem_cons_self p ps)
        have hps : ∀ c' ∈ ps, evalCondExpr env c'.cond = .ok false :=
          fun c' hc' => hpre c' (List.mem_cons_of_mem p hc')
        simp [runChain, hp, ih hps]

/-- Witness for C4: the unterminated chain of `test_wf1_branches_no_else`
raises at trace time, and in `test_wf1_branches` with `a=5` (so `x=7`) the
second arm is the first true one and its body value is selected. -/
theorem conditional_else_mandatory_first_true_witness :
    traceStmts ⟨[]⟩ (wfInputEnv ["a", "b"])
        [.condStmt "d" ⟨"test1", [branchArm1, branchArm2], none⟩] =
      .error .notImplementedError ∧
    runChain emptyMocks [("x", .i 7), ("y", .s "world"), ("b", .s "hello ")]
        ([branchArm1] ++ branchArm2 :: []) (.failMsg "Unable to choose branch") =
      runArm emptyMocks [("x", .i 7), ("y", .s "world"), ("b", .s "hello ")]
        branchArm2.thenTask branchArm2.thenArgs :=
  ⟨conditional_else_mandatory_first_true.1 ⟨[]⟩ (wfInputEnv ["a", "b"]) "d" "test1"
      [branchArm1, branchArm2] [],
   conditional_else_mandatory_first_true.2 emptyMocks
      [("x", .i 7), ("y", .s "world"), ("b", .s "hello ")]
      (.failMsg "Unable to choose branch") [branchArm1] [] branchArm2
      (by
        intro c hc
        cases hc with
        | head => rfl
        | tail _ hc => cases hc)
      rfl⟩

/-! ### Claims C2 and C3: trace well-formedness invariants -/

theorem promiseToBinding_refs (p : Promise) :
    (promiseToBinding p).refs = p.nodeRefs := by
  cases p <;> rfl

theorem lookupEnv_mem (env : TraceEnv) (n : String) (p : Promise)
    (h : lookupEnv env n = some p) : ∃ q, q ∈ env ∧ q.2 = p := by
  unfold lookupEnv at h
  cases hfind : env.find? (fun q => q.1 == n) with
  | none => rw [hfind] at h; cases h
  | some q =>
      rw [hfind] at h
      exact ⟨q, List.mem_of_find?_eq_some hfind, by simpa using h⟩

theorem exprToBinding_refs_bound (env : TraceEnv) (k : Nat)
    (henv : ∀ q ∈ env, ∀ r ∈ (q.2 : Promise).nodeRefs, r < k) :
    ∀ (e : Expr) (b : BindingData), exprToBinding env e = some b → ∀ r ∈ b.refs, r < k := by
  intro e
  induction e with
  | evar n =>
      intro b hb r hr
      unfold exprToBinding at hb
      cases hlook : lookupEnv env n with
      | none => rw [hlook] at hb; cases hb
      | some p =>
          rw [hlook] at hb
          simp at hb
          subst hb
          obtain ⟨q, hq, hq2⟩ := lookupEnv_mem env n p hlook
          rw [promiseToBinding_refs] at hr
          rw [← hq2] at hr
          exact henv q hq r hr
  | lit v =>
      intro b hb r hr
      unfold exprToBinding at hb
      simp at hb
      subst hb
      simp [BindingData.refs] at hr
  | nilE =>
      intro b hb r hr
      unfold exprToBinding at hb
      simp at hb
      subst hb
      simp [BindingData.refs] at hr
  | consE e es ih1 ih2 =>
      intro b hb r hr
      unfold exprToBinding at hb
      cases h1 : exprToBinding env e with
      | none => rw [h1] at hb; cases hb
      | some b1 =>
          cases h2 : exprToBinding env es with
          | none => rw [h1, h2] at hb; cases hb
          | some b2 =>
              rw [h1, h2] at hb
              simp at hb
              subst hb
              simp [BindingData.refs] at hr
              cases hr with
              | inl h => exact ih1 b1 h1 r h
              | inr h => exact ih2 b2 h2 r h

theorem argsToBindings_refs_bound (env : TraceEnv) (k : Nat)
    (henv : ∀ q ∈ env, ∀ r ∈ (q.2 : Promise).nodeRefs, r < k) :
    ∀ (args : List (String × Expr)) (bds : List (String × BindingData)),
      argsToBindings env args = some bds → ∀ r ∈ argsRefs bds, r < k := by
  intro args
  induction args with
  | nil =>
      intro bds hb r hr
      unfold argsToBindings at hb
      simp at hb
      subst hb
      simp [argsRefs] at hr
  | cons a rest ih =>
      intro bds hb r hr
      unfold argsToBindings at hb
      cases h1 : exprToBinding env a.2 with
      | none => rw [h1] at hb; cases hb
      | some b1 =>
          cases h2 : argsToBindings env rest with
          | none => rw [h1, h2] at hb; cases hb
          | some bs =>
              rw [h1, h2] at hb
              simp at hb
              subst hb
              simp [argsRefs] at hr
              cases hr with
              | inl h => exact exprToBinding_refs_bound env k henv a.2 b1 h1 r h
              | inr h => exact ih bs h2 r h

theorem condExprBinding_refs_bound (env : TraceEnv) (k : Nat)
    (henv : ∀ q ∈ env, ∀ r ∈ (q.2 : Promise).nodeRefs, r < k) :
    ∀ (ce : CondExpr) (b : BindingData), condExprBinding env ce = some b → ∀ r ∈ b.refs, r < k := by
  intro ce
  induction ce with
  | cmp l op rhs =>
      intro b hb r hr
      unfold condExprBinding at hb
      cases h1 : exprToBinding env l with
      | none => rw [h1] at hb; cases hb
      | some bl =>
          cases h2 : exprToBinding env rhs with
          | none => rw [h1, h2] at hb; cases hb
          | some br =>
              rw [h1, h2] at hb
              simp at hb
              subst hb
              simp [BindingData.refs] at hr
              cases hr with
              | inl h => exact exprToBinding_refs_bound env k henv l bl h1 r h
              | inr h => exact exprToBinding_refs_bound env k henv rhs br h2 r h
  | conj a b iha ihb =>
      intro bd hb r hr
      unfold condExprBinding at hb
      cases h1 : condExprBinding env a with
      | none => rw [h1] at hb; cases hb
      | some ba =>
          cases h2 : condExprBinding env b with
          | none => rw [h1, h2] at hb; cases hb
          | some bb =>
              rw [h1, h2] at hb
              simp at hb
              subst hb
              simp [BindingData.refs] at hr
              cases hr with
              | inl h => exact iha ba h1 r h
              | inr h => exact ihb bb h2 r h
  | disj a b iha ihb =>
      intro bd hb r hr
      unfold condExprBinding at hb
      cases h1 : condExprBinding env a with
      | none => rw [h1] at hb; cases hb
      | some ba =>
          cases h2 : condExprBinding env b with
          | none => rw [h1, h2] at hb; cases hb
          | some bb =>
              rw [h1, h2] at hb
              simp at hb
              subst hb
              simp [BindingData.refs] at hr
              cases hr with
              | inl h => exact iha ba h1 r h
              | inr h => exact ihb bb h2 r h

theorem condCasesBinding_refs_bound (env : TraceEnv) (k : Nat)
    (henv : ∀ q ∈ env, ∀ r ∈ (q.2 : Promise).nodeRefs, r < k) :
    ∀ (arms : List CondCase) (b : BindingData),
      condCasesBinding env arms = some b → ∀ r ∈ b.refs, r < k := by
  intro arms
  induction arms with
  | nil =>
      intro b hb r hr
      unfold condCasesBinding at hb
      simp at hb
      subst hb
      simp [BindingData.refs] at hr
  | cons c rest ih =>
      intro b hb r hr
      unfold condCasesBinding at hb
      cases h1 : condExprBinding env c.cond with
      | none => rw [h1] at hb; cases hb
      | some b1 =>
          cases h2 : condCasesBinding env rest with
          | none => rw [h1, h2] at hb; cases hb
          | some bs =>
              rw [h1, h2] at hb
              simp at hb
              subst hb
              simp [BindingData.refs] at hr
              cases hr with
              | inl h => exact condExprBinding_refs_bound env k henv c.cond b1 h1 r h
              | inr h => exact ih bs h2 r h

theorem bindingsRefs_map (args : List (String × BindingData)) :
    bindingsRefs (args.map fun a => { var := a.1, binding := a.2 }) = argsRefs args := by
  induction args with
  | nil => rfl
  | cons a rest ih => simp [bindingsRefs, argsRefs, ih]

/-- A node is well formed when its upstream set is exactly the set of
nodes referenced by its input bindings, all of which were created
earlier. -/
def nodeWF (n : Node) : Prop :=
  (∀ r, r ∈ n.upstream ↔ r ∈ bindingsRefs n.bindings) ∧
  ∀ r ∈ bindingsRefs n.bindings, r < n.id

/-- A compilation state is well formed when node ids are exactly the call
order `0, 1, …` and every node is well formed. -/
def stateWF (cs : CompilationState) : Prop :=
  cs.nodes.map Node.id = List.range cs.nodes.length ∧ ∀ n ∈ cs.nodes, nodeWF n

/-- Every promise in the environment references only nodes already
created. -/
def envWF (cs : CompilationState) (env : TraceEnv) : Prop :=
  ∀ q ∈ env, ∀ r ∈ (q.2 : Promise).nodeRefs, r < cs.nodes.length

theorem createNode_fst_nodes (cs : CompilationState) (nm : String)
    (args : List (String × BindingData)) :
    (createNode cs nm args).1.nodes = cs.nodes ++
      [{ id := cs.nodes.length, taskName := nm,
         bindings := args.map fun a => { var := a.1, binding := a.2 },
         upstream := (argsRefs args).dedup }] := rfl

theorem createNode_snd (cs : CompilationState) (nm : String)
    (args : List (String × BindingData)) :
    (createNode cs nm args).2 = cs.nodes.length := rfl

theorem createNode_stateWF (cs : CompilationState) (nm : String)
    (args : List (String × BindingData)) (hcs : stateWF cs)
    (hargs : ∀ r ∈ argsRefs args, r < cs.nodes.length) :
    stateWF (createNode cs nm args).1 := by
  obtain ⟨hids, hnodes⟩ := hcs
  constructor
  · rw [createNode_fst_nodes]
    simp only [List.map_append, List.length_append, List.map_cons, List.map_nil,
      List.length_cons, List.length_nil, Nat.add_zero]
    rw [hids, List.range_succ]
  · rw [createNode_fst_nodes]
    intro n hn
    rcases List.mem_append.mp hn with h | h
    · exact hnodes n h
    · simp only [List.mem_singleton] at h
      subst h
      constructor
      · intro r
        simp [List.mem_dedup, bindingsRefs_map]
      · intro r hr
        rw [bindingsRefs_map] at hr
        exact hargs r hr

theorem outPromises_refs (nid : Nat) (outs decls : List String) :
    ∀ q ∈ outPromises nid outs decls, ∀ r ∈ (q.2 : Promise).nodeRefs, r = nid := by
  intro q hq r hr
  unfold outPromises at hq
  obtain ⟨p, _, rfl⟩ := List.mem_map.mp hq
  simpa [Promise.nodeRefs, RefTarget.nodeIds] using hr

theorem traceStmts_WF :
    ∀ (stmts : List Stmt) (cs : CompilationState) (env : TraceEnv)
      (cs' : CompilationState) (env' : TraceEnv),
      stateWF cs → envWF cs env →
      traceStmts cs env stmts = .ok (cs', env') → stateWF cs' := by
  intro stmts
  induction stmts with
  | nil =>
      intro cs env cs' env' hcs henv h
      unfold traceStmts at h
      cases h
      exact hcs
  | cons s rest ih =>
      intro cs env cs' env' hcs henv h
      cases s with
      | callTask outs t args =>
          unfold traceStmts at h
          cases hab : argsToBindings env args with
          | none => rw [hab] at h; cases h
          | some bds =>
              rw [hab] at h
              have hbound : ∀ r ∈ argsRefs bds, r < cs.nodes.length :=
                argsToBindings_refs_bound env cs.nodes.length henv args bds hab
              have hcs2 : stateWF (createNode cs t.name bds).1 :=
                createNode_stateWF cs t.name bds hcs hbound
              have hlen : (createNode cs t.name bds).1.nodes.length = cs.nodes.length + 1 :=
                createNode_nodes_length cs t.name bds
              have henv2 : envWF (createNode cs t.name bds).1
                  (outPromises (createNode cs t.name bds).2 outs t.outputs ++ env) := by
                intro q hq r hr
                rcases List.mem_append.mp hq with hq | hq
                · have heq := outPromises_refs (createNode cs t.name bds).2 outs t.outputs q hq r hr
                  rw [createNode_snd] at heq
                  rw [hlen]
                  omega
                · have := henv q hq r hr
                  rw [hlen]
                  omega
              exact ih _ _ _ _ hcs2 henv2 h
      | condStmt out chain =>
          unfold traceStmts at h
          cases hel : chain.elseClause with
          | none => rw [hel] at h; cases h
          | some els =>
              rw [hel] at h
              cases hcb : condCasesBinding env chain.cases with
              | none => rw [hcb] at h; cases h
              | some b =>
                  rw [hcb] at h
                  have hbound : ∀ r ∈ argsRefs [(chain.name, b)], r < cs.nodes.length := by
                    intro r hr
                    simp only [argsRefs, List.append_nil] at hr
                    exact condCasesBinding_refs_bound env cs.nodes.length henv
                      chain.cases b hcb r hr
                  have hcs2 : stateWF (createNode cs ("branch-" ++ chain.name)
                      [(chain.name, b)]).1 :=
                    createNode_stateWF cs ("branch-" ++ chain.name) [(chain.name, b)] hcs hbound
                  have hlen : (createNode cs ("branch-" ++ chain.name)
                      [(chain.name, b)]).1.nodes.length = cs.nodes.length + 1 :=
                    createNode_nodes_length cs ("branch-" ++ chain.name) [(chain.name, b)]
                  have henv2 : envWF (createNode cs ("branch-" ++ chain.name)
                      [(chain.name, b)]).1
                      ((out, Promise.pend out ⟨.node (createNode cs ("branch-" ++ chain.name)
                        [(chain.name, b)]).2, out⟩) :: env) := by
                    intro q hq r hr
                    rcases List.mem_cons.mp hq with hq | hq
                    · subst hq
                      simp only [Promise.nodeRefs, RefTarget.nodeIds,
                        List.mem_singleton] at hr
                      rw [createNode_snd] at hr
                      rw [hlen]
                      omega
                    · have := henv q hq r hr
                      rw [hlen]
                      omega
                  exact ih _ _ _ _ hcs2 henv2 h

/-- The environment of pipeline-input promises references no node. -/
theorem wfInputEnv_refs (inputs : List String) :
    ∀ q ∈ wfInputEnv inputs, ∀ r ∈ (q.2 : Promise).nodeRefs, False := by
  intro q hq r hr
  unfold wfInputEnv at hq
  obtain ⟨nm, _, rfl⟩ := List.mem_map.mp hq
  simp [Promise.nodeRefs, RefTarget.nodeIds] at hr

/-- A successfully compiled pipeline definition has a well-formed
compilation state. -/
theorem defineWorkflow_ok_stateWF (wf : Workflow) (cw : CompiledWorkflow)
    (h : defineWorkflow wf = .ok cw) : stateWF cw.state := by
  unfold defineWorkflow at h
  cases htr : traceStmts ⟨[]⟩ (wfInputEnv wf.inputs) wf.body with
  | error e => rw [htr] at h; cases h
  | ok p =>
      rw [htr] at h
      obtain ⟨cs, env⟩ := p
      dsimp only at h
      have hcs : stateWF cs :=
        traceStmts_WF wf.body ⟨[]⟩ (wfInputEnv wf.inputs) cs env
          ⟨rfl, by intro n hn; cases hn⟩
          (fun q hq r hr => absurd hr (by
            intro hr
            exact wfInputEnv_refs wf.inputs q hq r hr))
          htr
      cases hrb : retToBindings env wf.ret with
      | none => rw [hrb] at h; cases h
      | some rbs =>
          rw [hrb] at h
          dsimp only at h
          by_cases hl : wf.outputs.length = rbs.length
          · rw [if_pos hl] at h
            cases h
            exact hcs
          · rw [if_neg hl] at h
            cases h

/-- C2: for every node created during a single compilation, the upstream
node set is exactly the set of nodes referenced by its input bindings —
no more, no fewer — and every referenced node was already created earlier
in the same compilation (its id is smaller and a node with that id exists
in the sequence). -/
theorem node_upstream_exactly_referenced (wf : Workflow) (cw : CompiledWorkflow)
    (h : defineWorkflow wf = .ok cw) :
    ∀ n ∈ cw.state.nodes,
      (∀ r, r ∈ n.upstream ↔ r ∈ bindingsRefs n.bindings) ∧
      ∀ r ∈ bindingsRefs n.bindings, r < n.id ∧ ∃ m ∈ cw.state.nodes, m.id = r := by
  have hwf := defineWorkflow_ok_stateWF wf cw h
  obtain ⟨hids, hnodes⟩ := hwf
  intro n hn
  obtain ⟨hup, hbound⟩ := hnodes n hn
  refine ⟨hup, ?_⟩
  intro r hr
  refine ⟨hbound r hr, ?_⟩
  have hidlt : n.id < cw.state.nodes.length := by
    have : n.id ∈ cw.state.nodes.map Node.id := List.mem_map_of_mem Node.id hn
    rw [hids] at this
    exact List.mem_range.mp this
  have hrlt : r < cw.state.nodes.length := Nat.lt_trans (hbound r hr) hidlt
  have : r ∈ cw.state.nodes.map Node.id := by
    rw [hids]
    exact List.mem_range.mpr hrlt
  obtain ⟨m, hm, hmid⟩ := List.mem_map.mp this
  exact ⟨m, hm, hmid⟩

/-- C3: node ids are assigned in strict call order starting at 0 — the
sequence of ids is exactly `0, 1, …` in order (so the string ids are
`node-0`, `node-1`, …), stable for the duration of the trace. -/
theorem node_ids_strict_call_order (wf : Workflow) (cw : CompiledWorkflow)
    (h : defineWorkflow wf = .ok cw) :
    cw.state.nodes.map Node.id = List.range cw.state.nodes.length ∧
    cw.state.nodes.map Node.idString =
      (List.range cw.state.nodes.length).map (fun k => "node-" ++ toString k) := by
  have h1 := (defineWorkflow_ok_stateWF wf cw h).1
  refine ⟨h1, ?_⟩
  rw [← h1, List.map_map]
  rfl

/-- The first node traced for `my_wf` (`test_wf1`): `t1(a=a)`. -/
def myWfNode0 : Node :=
  { id := 0
    taskName := "t1"
    bindings := [⟨"a", .promiseRef ⟨.wfInput, "a"⟩⟩]
    upstream := [] }

/-- The second node traced for `my_wf` (`test_wf1`): `t2(a=y, b=b)`, with
node 0 upstream via the promise `y`. -/
def myWfNode1 : Node :=
  { id := 1
    taskName := "t2"
    bindings := [⟨"a", .promiseRef ⟨.node 0, "c"⟩⟩, ⟨"b", .promiseRef ⟨.wfInput, "b"⟩⟩]
    upstream := [0] }

/-- The compiled form of `my_wf`: two nodes and the two output bindings
`out_0`/`out_1` (`test_wf1`). -/
def myWfCompiled : CompiledWorkflow :=
  { state := ⟨[myWfNode0, myWfNode1]⟩
    outputBindings :=
      [⟨"out_0", .promiseRef ⟨.node 0, "t1_int_output"⟩⟩,
       ⟨"out_1", .promiseRef ⟨.node 1, "o0"⟩⟩] }

/-- Tracing `my_wf` produces exactly the two nodes and output bindings
asserted by `test_wf1`. -/
theorem defineWorkflow_myWf : defineWorkflow myWf = .ok myWfCompiled := rfl

/-- Witness for C2 at the concrete pipeline `my_wf`: node 1's upstream set
is exactly its referenced set, and its reference to node 0 points at an
earlier, existing node. -/
theorem node_upstream_exactly_referenced_witness :
    (0 ∈ myWfNode1.upstream ↔ 0 ∈ bindingsRefs myWfNode1.bindings) ∧
    0 < myWfNode1.id ∧ ∃ m ∈ myWfCompiled.state.nodes, m.id = 0 :=
  ⟨(node_upstream_exactly_referenced myWf myWfCompiled rfl myWfNode1
      (List.Mem.tail _ (List.Mem.head _))).1 0,
   (node_upstream_exactly_referenced myWf myWfCompiled rfl myWfNode1
      (List.Mem.tail _ (List.Mem.head _))).2 0 (by decide)⟩

/-- Witness for C3 at the concrete pipeline `my_wf`: the traced ids are
`[0, 1]`, i.e. `node-0`, `node-1` in call order (`test_wf1` asserts
`my_wf._nodes[0].id == "node-0"`). -/
theorem node_ids_strict_call_order_witness :
    myWfCompiled.state.nodes.map Node.id = List.range myWfCompiled.state.nodes.length ∧
    myWfCompiled.state.nodes.map Node.idString =
      (List.range myWfCompiled.state.nodes.length).map (fun k => "node-" ++ toString k) :=
  node_ids_strict_call_order myWf myWfCompiled rfl

/-! ### Claim C6: output arity mismatch is a definition-time error -/

/-- Replace a task's real body by a stub; definition-time processing never
runs bodies, so this must not change it. -/
def eraseTaskRun (t : Task) : Task := { t with run := fun _ => [] }

/-- Stub the arm body task of a conditional case. -/
def eraseCaseRun (c : CondCase) : CondCase := { c with thenTask := eraseTaskRun c.thenTask }

/-- Stub the task of an else clause. -/
def eraseElseRun : ElseClause → ElseClause
  | .thenCase t args => .thenCase (eraseTaskRun t) args
  | .failMsg m => .failMsg m

/-- Stub every task body mentioned by a conditional chain. -/
def eraseChainRun (ch : CondChain) : CondChain :=
  { ch with cases := ch.cases.map eraseCaseRun, elseClause := ch.elseClause.map eraseElseRun }

/-- Stub every task body mentioned by a statement. -/
def eraseStmtRun : Stmt → Stmt
  | .callTask outs t args => .callTask outs (eraseTaskRun t) args
  | .condStmt out ch => .condStmt out (eraseChainRun ch)

/-- Stub every task body mentioned by a pipeline definition. -/
def eraseWorkflowRuns (wf : Workflow) : Workflow := { wf with body := wf.body.map eraseStmtRun }

theorem condCasesBinding_erase (env : TraceEnv) :
    ∀ arms : List CondCase,
      condCasesBinding env (arms.map eraseCaseRun) = condCasesBinding env arms := by
  intro arms
  induction arms with
  | nil => rfl
  | cons c rest ih =>
      simp only [List.map_cons, condCasesBinding, eraseCaseRun]
      rw [ih]

theorem traceStmts_erase :
    ∀ (stmts : List Stmt) (cs : CompilationState) (env : TraceEnv),
      traceStmts cs env (stmts.map eraseStmtRun) = traceStmts cs env stmts := by
  intro stmts
  induction stmts with
  | nil => intro cs env; rfl
  | cons s rest ih =>
      intro cs env
      cases s with
      | callTask outs t args =>
          simp only [List.map_cons, eraseStmtRun, traceStmts]
          cases hab : argsToBindings env args with
          | none => rfl
          | some bds =>
              dsimp only [eraseTaskRun]
              exact ih _ _
      | condStmt out chain =>
          simp only [List.map_cons, eraseStmtRun, traceStmts, eraseChainRun]
          cases hel : chain.elseClause with
          | none => rfl
          | some els =>
              dsimp only [Option.map_some']
              rw [condCasesBinding_erase]
              cases hcb : condCasesBinding env chain.cases with
              | none => rfl
              | some b => exact ih _ _

theorem defineWorkflow_erase (wf : Workflow) :
    defineWorkflow (eraseWorkflowRuns wf) = defineWorkflow wf := by
  unfold defineWorkflow eraseWorkflowRuns
  dsimp only
  rw [traceStmts_erase]

theorem retToBindings_length (env : TraceEnv) :
    ∀ (es : List Expr) (bds : List BindingData),
      retToBindings env es = some bds → bds.length = es.length := by
  intro es
  induction es with
  | nil =>
      intro bds h
      unfold retToBindings at h
      simp at h
      subst h
      rfl
  | cons e rest ih =>
      intro bds h
      unfold retToBindings at h
      cases h1 : exprToBinding env e with
      | none => rw [h1] at h; cases h
      | some b =>
          cases h2 : retToBindings env rest with
          | none => rw [h1, h2] at h; cases h
          | some bs =>
              rw [h1, h2] at h
              simp at h
              subst h
              simp [ih bs h2]

/-- C6: a pipeline definition whose declared output count differs from the
element count of its return expression fails at definition/trace time with
the `DefinitionError`-class error; and definition-time processing is
independent of every task body — nothing executes before the error is
raised. -/
theorem output_arity_mismatch_definition_error :
    (∀ (wf : Workflow) (cs : CompilationState) (env : TraceEnv),
      traceStmts ⟨[]⟩ (wfInputEnv wf.inputs) wf.body = .ok (cs, env) →
      (∃ rbs, retToBindings env wf.ret = some rbs) →
      wf.outputs.length ≠ wf.ret.length →
      defineWorkflow wf = .error .definitionError) ∧
    (∀ wf : Workflow, defineWorkflow (eraseWorkflowRuns wf) = defineWorkflow wf) := by
  refine ⟨?_, defineWorkflow_erase⟩
  rintro wf cs env htr ⟨rbs, hrb⟩ hne
  unfold defineWorkflow
  rw [htr]
  dsimp only
  rw [hrb]
  dsimp only
  rw [if_neg]
  intro hl
  exact hne (by rw [hl, retToBindings_length env wf.ret rbs hrb])

/-- The pipeline of `test_wf_output_mismatch`: two declared outputs bound
to a single-element return. -/
def arityWf : Workflow :=
  { name := "my_wf"
    inputs := ["a", "b"]
    outputs := ["o0", "o1"]
    body := []
    ret := [.evar "a"] }

/-- Witness for C6: defining the two-output pipeline returning a single
expression fails with the definition error, with or without task
bodies. -/
theorem output_arity_mismatch_definition_error_witness :
    defineWorkflow arityWf = .error .definitionError ∧
    defineWorkflow (eraseWorkflowRuns arityWf) = defineWorkflow arityWf :=
  ⟨output_arity_mismatch_definition_error.1 arityWf ⟨[]⟩ (wfInputEnv ["a", "b"]) rfl
      ⟨[.promiseRef ⟨.wfInput, "a"⟩], rfl⟩ (by decide),
   output_arity_mismatch_definition_error.2 arityWf⟩

end FlytekitSpec
